import Mathlib

/-!
# strm-generator: scanner, generator and syncer

A shallow embedding of the three packages of the repository

* `pkg/scanner/scanner.go`   (`ClassifyFile`, `Scan`, `ScanSince`, `scanDirSince`),
* `pkg/generator/generator.go` (`New`, `GenerateSTRM`, `GetEmbyMount`),
* `pkg/syncer/syncer.go`     (`CopyFile`, `DeleteOrphans`, `FindOrphans`, `FindMissing`),

followed by theorems about them.

Conventions of the embedding.

* A Go `string` is a Lean `String`; the byte-level routines of the standard
  library that the code calls (`filepath.Ext`, `strings.HasPrefix`) only look
  at the ASCII bytes `.` and `/` or compare whole strings, so they are
  written over the list of characters.
* A Go `map[string]bool` is the list of its key/value pairs in the order in
  which a `range` loop happens to visit them; the keys of a map are pairwise
  distinct (`GoMap.WF`).  Since the order is arbitrary, theorems quantify
  over every such list.
* The packages `pkg/models` and `pkg/mapper` are not part of the sources at
  hand: the three extension tables and the path mapper are parameters.
* The operating system is a parameter as well: a record of the `os` calls
  the code makes, over an arbitrary type of filesystem states.
* A directory tree is the listing of its root; a scan threads the records
  sent on `fileChan`, the errors accepted by `errChan`, the paths passed to
  `os.ReadDir` and the number of polls of `ctx.Done()` through the walk.
-/

namespace StrmGenerator

/-! ## Go maps used as sets -/

/-- A Go `map[string]bool`, as the list of its entries in iteration order. -/
abbrev GoMap := List (String × Bool)

namespace GoMap

/-- The keys of the map, in iteration order. -/
def keys (m : GoMap) : List String := m.map Prod.fst

/-- The map invariant: no key occurs twice. -/
def WF (m : GoMap) : Prop := m.keys.Nodup

/-- The index expression `m[k]`: the stored value, or the zero value `false`
when `k` is not a key. -/
def get : GoMap → String → Bool
  | [], _ => false
  | (k, v) :: rest, key => if k = key then v else get rest key

/-- The map is used as a set: every stored value is `true`. -/
def AllTrue (m : GoMap) : Prop := ∀ kv ∈ m, kv.2 = true

instance (m : GoMap) : Decidable m.WF := by unfold WF; infer_instance

instance (m : GoMap) : Decidable m.AllTrue := by unfold AllTrue; infer_instance

end GoMap

/-! ## `pkg/syncer`: orphan and missing detection -/

/-- The loop of `FindOrphans`: `for path := range existing`, appending `path`
to `orphans` when `!current[path]`. -/
def FindOrphans.loop (current : GoMap) : List (String × Bool) → List String → List String
  | [], orphans => orphans
  | (path, _) :: rest, orphans =>
      if !current.get path then FindOrphans.loop current rest (orphans ++ [path])
      else FindOrphans.loop current rest orphans

/-- Models `syncer.FindOrphans`: `var orphans []string`, then the loop. -/
def FindOrphans (existing current : GoMap) : List String :=
  FindOrphans.loop current existing []

/-- The loop of `FindMissing`: `for path := range current`, appending `path`
to `missing` when `!existing[path]`. -/
def FindMissing.loop (existing : GoMap) : List (String × Bool) → List String → List String
  | [], missing => missing
  | (path, _) :: rest, missing =>
      if !existing.get path then FindMissing.loop existing rest (missing ++ [path])
      else FindMissing.loop existing rest missing

/-- Models `syncer.FindMissing`: `var missing []string`, then the loop. -/
def FindMissing (existing current : GoMap) : List String :=
  FindMissing.loop existing current []

/-! ## `pkg/scanner`: classification -/

/-- Models `models.FileType`. -/
inductive FileType where
  | Media
  | Metadata
  | Image
  | Unknown
  deriving DecidableEq, Repr

/-- The three lookup tables of `pkg/models` (`MediaExtensions`,
`MetadataExtensions`, `ImageExtensions`), each a `map[string]bool` read
through its index expression, together with `unicode.ToLower`, the rune
mapping that `strings.ToLower` applies to every rune of its argument. -/
structure Tables where
  MediaExtensions : String → Bool
  MetadataExtensions : String → Bool
  ImageExtensions : String → Bool
  lowerRune : Char → Char

/-- The loop of `filepath.Ext`, run from the last byte towards the first:
`rev` holds the bytes not yet visited, last one first, `acc` the bytes
already passed.  It stops on a path separator (`/`) with the empty string
and on a dot with the suffix that starts at that dot. -/
def Ext.loop : List Char → List Char → List Char
  | [], _ => []
  | c :: rev, acc =>
      if c = '/' then []
      else if c = '.' then c :: acc
      else Ext.loop rev (c :: acc)

/-- Models `filepath.Ext`. -/
def Ext (path : String) : String := ⟨Ext.loop path.data.reverse []⟩

/-- Models `strings.ToLower`. -/
def ToLower (t : Tables) (s : String) : String := ⟨s.data.map t.lowerRune⟩

/-- Models `scanner.ClassifyFile` (and, line for line, `ClassifyFileStatic`). -/
def ClassifyFile (t : Tables) (path : String) : FileType :=
  let ext := ToLower t (Ext path)
  if ext = "" then FileType.Unknown
  else if t.MediaExtensions ext then FileType.Media
  else if t.MetadataExtensions ext then FileType.Metadata
  else if t.ImageExtensions ext then FileType.Image
  else FileType.Unknown

/-- The final element of a path, in the words of the documentation of
`filepath.Ext`: what follows the last separator, the whole path when it has
none. -/
def finalElement (path : List Char) : List Char :=
  (path.reverse.takeWhile (fun c => c ≠ '/')).reverse

/-- The suffix of `s` that starts at its last dot, empty when `s` has no
dot. -/
def suffixFromLastDot (s : List Char) : List Char :=
  if '.' ∈ s then '.' :: (s.reverse.takeWhile (fun c => c ≠ '.')).reverse else []

/-- The extension of a path as the specification words it: the suffix from
the last dot of the final path element. -/
def extension (path : String) : String := ⟨suffixFromLastDot (finalElement path.data)⟩

/-! ## The operating system -/

/-- The error numbers of the operating system that the code distinguishes
or that the examples use (`syscall.Errno`). -/
inductive Errno where
  | ENOENT
  | EEXIST
  | ENOTDIR
  | EISDIR
  | EACCES
  | ENOSPC
  | other (code : Nat)
  deriving DecidableEq, Repr

/-- Models `os.IsNotExist`, on the errors that the `os` calls return. -/
def IsNotExist (err : Errno) : Bool := decide (err = Errno.ENOENT)

/-- The calls into `os`, `io` and `path/filepath` that the packages make, over
a type `σ` of filesystem states.  A call that can change the filesystem
returns its error (`none` for `nil`) and the state it leaves; a call that
only reads returns its result.  `Lstat` is not called by the code: it is the
observation "does this path name an entry" that the theorems on deletion
refer to. -/
structure OS (σ : Type) where
  /-- Models `os.Stat`: the error, or `FileInfo.IsDir()` of the entry found. -/
  Stat : σ → String → Except Errno Bool
  /-- Models `os.Lstat`, error only. -/
  Lstat : σ → String → Option Errno
  /-- Models `os.MkdirAll(path, perm)`. -/
  MkdirAll : σ → String → Nat → Option Errno × σ
  /-- Models `os.WriteFile(name, data, perm)`. -/
  WriteFile : σ → String → String → Nat → Option Errno × σ
  /-- Models `os.ReadFile(name)`. -/
  ReadFile : σ → String → Except Errno String
  /-- Models `os.Open(name)`, error only. -/
  Open : σ → String → Option Errno
  /-- Models `os.Create(name)`. -/
  Create : σ → String → Option Errno × σ
  /-- Models `io.CopyBuffer(dstFile, srcFile, buf)` on the files opened at `dst` and
  `src`, error only (the byte count is discarded by the code). -/
  CopyBuffer : σ → String → String → Option Errno × σ
  /-- Models `dstFile.Sync()` on the file created at the path. -/
  Sync : σ → String → Option Errno × σ
  /-- Models `os.Remove(name)`. -/
  Remove : σ → String → Option Errno × σ
  /-- Models `filepath.Dir`. -/
  Dir : String → String
  /-- Models `filepath.Clean`. -/
  Clean : String → String

/-- The two errors of a context that is done (`ctx.Err()`). -/
inductive CtxErr where
  | Canceled
  | DeadlineExceeded
  deriving DecidableEq, Repr

/-- A `context.Context` as the code observes it: `ctx k` is what the `k`-th
poll of `ctx.Done()` made by a call finds, `none` while the context is open
and `some e` once it is done with `ctx.Err() = e`. -/
abbrev Context := Nat → Option CtxErr

/-- The context is never cancelled. -/
def Context.Open (ctx : Context) : Prop := ∀ k, ctx k = none

/-- Models `context.Background()`. -/
def Context.background : Context := fun _ => none

/-- Models `strings.HasPrefix(s, pre)`. -/
def HasPrefix (s pre : String) : Bool := pre.data.isPrefixOf s.data

/-! ## `pkg/generator` -/

/-- Models `generator.GenerationStatus`. -/
inductive GenerationStatus where
  | Success
  | Skipped
  | Failed
  deriving DecidableEq, Repr

/-- The errors `GenerateSTRM` returns: `ctx.Err()` and the three
`fmt.Errorf` values. -/
inductive GenerationError where
  | context (e : CtxErr)
  | mountPrefixViolation (embyPath : String)
  | createDirectory (dir : String) (err : Errno)
  | writeFile (strmPath : String) (err : Errno)
  deriving DecidableEq, Repr

/-- Models `generator.GenerationResult`; `Error = none` is the `nil` error. -/
structure GenerationResult where
  Path : String
  Status : GenerationStatus
  Error : Option GenerationError
  deriving DecidableEq, Repr

/-- The interface `mapper.PathMapper`, as far as the generator calls it. -/
structure PathMapper where
  ToSTRMPath : String → String
  ToEmbyPath : String → String

/-- The struct `generator`. -/
structure Generator where
  pathMapper : PathMapper
  embyMount : String

/-- Models `generator.New`. -/
def New {σ : Type} (os : OS σ) (pathMapper : PathMapper) (embyMount : String) : Generator :=
  { pathMapper := pathMapper, embyMount := os.Clean embyMount }

/-- Models `(*generator).GetEmbyMount`. -/
def GetEmbyMount (g : Generator) : String := g.embyMount

/-- Models `(*generator).CreateDirectories`. -/
def CreateDirectories {σ : Type} (os : OS σ) (fs : σ) (path : String) : Option Errno × σ :=
  os.MkdirAll fs path 0o755

/-- Models `(*generator).GenerateSTRM`, from the filesystem state `fs`: the result
and the filesystem state it leaves. -/
def GenerateSTRM {σ : Type} (os : OS σ) (g : Generator) (ctx : Context) (fs : σ)
    (mediaPath : String) : GenerationResult × σ :=
  match ctx 0 with
  | some e =>
      ({ Path := mediaPath, Status := .Failed, Error := some (.context e) }, fs)
  | none =>
      let strmPath := g.pathMapper.ToSTRMPath mediaPath
      let embyPath := g.pathMapper.ToEmbyPath mediaPath
      if !HasPrefix embyPath g.embyMount then
        ({ Path := strmPath, Status := .Failed,
           Error := some (.mountPrefixViolation embyPath) }, fs)
      else
        let dir := os.Dir strmPath
        match CreateDirectories os fs dir with
        | (some err, fs1) =>
            ({ Path := strmPath, Status := .Failed,
               Error := some (.createDirectory dir err) }, fs1)
        | (none, fs1) =>
            match os.Stat fs1 strmPath with
            | .ok _ => ({ Path := strmPath, Status := .Skipped, Error := none }, fs1)
            | .error _ =>
                match os.WriteFile fs1 strmPath embyPath 0o644 with
                | (some err, fs2) =>
                    ({ Path := strmPath, Status := .Failed,
                       Error := some (.writeFile strmPath err) }, fs2)
                | (none, fs2) =>
                    ({ Path := strmPath, Status := .Success, Error := none }, fs2)

/-! ## `pkg/syncer`: copy and deletion -/

/-- Models `syncer.CopyStatus`. -/
inductive CopyStatus where
  | Success
  | Skipped
  | Failed
  deriving DecidableEq, Repr

/-- The errors `CopyFile` returns. -/
inductive CopyError where
  | context (e : CtxErr)
  | createDirectory (dir : String) (err : Errno)
  | openSource (src : String) (err : Errno)
  | createDestination (dst : String) (err : Errno)
  | copyContent (err : Errno)
  | sync (err : Errno)
  deriving DecidableEq, Repr

/-- Models `syncer.CopyResult`. -/
structure CopyResult where
  Src : String
  Dst : String
  Status : CopyStatus
  Error : Option CopyError
  deriving DecidableEq, Repr

/-- Models `(*syncer).CopyFile`, from the filesystem state `fs`.  The deferred
`Close` calls have no effect that the model observes. -/
def CopyFile {σ : Type} (os : OS σ) (ctx : Context) (fs : σ) (src dst : String) :
    CopyResult × σ :=
  match ctx 0 with
  | some e => ({ Src := src, Dst := dst, Status := .Failed, Error := some (.context e) }, fs)
  | none =>
      match os.Stat fs dst with
      | .ok _ => ({ Src := src, Dst := dst, Status := .Skipped, Error := none }, fs)
      | .error _ =>
          let dir := os.Dir dst
          match os.MkdirAll fs dir 0o755 with
          | (some err, fs1) =>
              ({ Src := src, Dst := dst, Status := .Failed,
                 Error := some (.createDirectory dir err) }, fs1)
          | (none, fs1) =>
              match os.Open fs1 src with
              | some err =>
                  ({ Src := src, Dst := dst, Status := .Failed,
                     Error := some (.openSource src err) }, fs1)
              | none =>
                  match os.Create fs1 dst with
                  | (some err, fs2) =>
                      ({ Src := src, Dst := dst, Status := .Failed,
                         Error := some (.createDestination dst err) }, fs2)
                  | (none, fs2) =>
                      match os.CopyBuffer fs2 dst src with
                      | (some err, fs3) =>
                          ({ Src := src, Dst := dst, Status := .Failed,
                             Error := some (.copyContent err) }, (os.Remove fs3 dst).2)
                      | (none, fs3) =>
                          match os.Sync fs3 dst with
                          | (some err, fs4) =>
                              ({ Src := src, Dst := dst, Status := .Failed,
                                 Error := some (.sync err) }, fs4)
                          | (none, fs4) =>
                              ({ Src := src, Dst := dst, Status := .Success,
                                 Error := none }, fs4)

/-- The loop of `DeleteOrphans`: `k` polls of the context have been made,
the filesystem is `fs`, and `deleted` and `errors` are the two named
results so far. -/
def DeleteOrphans.loop {σ : Type} (os : OS σ) (ctx : Context) :
    Nat → σ → List String → Nat → Nat → (Nat × Nat) × σ
  | _, fs, [], deleted, errors => ((deleted, errors), fs)
  | k, fs, path :: rest, deleted, errors =>
      match ctx k with
      | some _ => ((deleted, errors), fs)
      | none =>
          match os.Remove fs path with
          | (some err, fs1) =>
              if !IsNotExist err then DeleteOrphans.loop os ctx (k + 1) fs1 rest deleted (errors + 1)
              else DeleteOrphans.loop os ctx (k + 1) fs1 rest deleted errors
          | (none, fs1) => DeleteOrphans.loop os ctx (k + 1) fs1 rest (deleted + 1) errors

/-- Models `(*syncer).DeleteOrphans`: `((deleted, errors), fs)` with the filesystem
state it leaves. -/
def DeleteOrphans {σ : Type} (os : OS σ) (ctx : Context) (fs : σ) (orphans : List String) :
    (Nat × Nat) × σ :=
  DeleteOrphans.loop os ctx 0 fs orphans 0 0

/-! ## `pkg/scanner`: the tree walk -/

/-- The part of `fs.FileInfo` that the scanner reads: `ModTime()` as the
signed distance from the zero time instant (so that `IsZero` is `= 0` and
`Before` is `<`), and `Size()`. -/
structure Meta where
  ModTime : Int
  Size : Int
  deriving DecidableEq, Repr

/-- The struct `models.FileInfo`; the field `Typ` is its field `Type`. -/
structure FileInfo where
  Path : String
  Typ : FileType
  ModTime : Int
  Size : Int
  deriving DecidableEq, Repr

/-- A directory tree, as the listing of its root: the entries that
`os.ReadDir` returns, in that order, each followed by the `rest` of the
listing.  An entry has its `entry.Name()` and the result `info` of
`entry.Info()`; `entry.IsDir()` holds of a `dir` entry and of no other.  A
`dir` entry carries what `os.ReadDir` makes of it: the error `readErr`
(`none` when it can be listed) and the listing `entries` below it. -/
inductive Listing where
  | nil
  | file (name : String) (info : Except Errno Meta) (rest : Listing)
  | dir (name : String) (info : Except Errno Meta) (readErr : Option Errno)
      (entries : Listing) (rest : Listing)
  deriving Repr

/-- One listing followed by another. -/
def Listing.append : Listing → Listing → Listing
  | .nil, l => l
  | .file name info rest, l => .file name info (rest.append l)
  | .dir name info readErr entries rest, l => .dir name info readErr entries (rest.append l)

/-- What a scan runs against, besides the tree: the classification tables,
`filepath.Join`, the context, and the receiver of the error channel:
`drained n` is the number of errors it has taken off the channel when the
scanner attempts a send after `n` accepted ones. -/
structure ScanEnv where
  tables : Tables
  Join : String → String → String
  ctx : Context
  drained : Nat → Nat

/-- The observable state of a running scan: the records sent on `fileChan`
and the errors accepted by `errChan`, oldest first; the paths passed to
`os.ReadDir` so far; and the number of polls of `ctx.Done()` made.  A send
on `fileChan` blocks until the receiver makes room, which the receiver is
taken to do. -/
structure ScanState where
  files : List FileInfo
  errs : List Errno
  reads : List String
  polls : Nat
  deriving DecidableEq, Repr

/-- The state in which `Scan` and `ScanSince` start the walk: two fresh
channels. -/
def ScanState.init : ScanState := { files := [], errs := [], reads := [], polls := 0 }

/-- The capacity of `errChan` (`make(chan error, 10)`). -/
def errChanCap : Nat := 10

/-- The non-blocking send `select { case errChan <- err: default: }`: the
error is accepted when the channel holds fewer than its capacity, dropped
otherwise. -/
def sendErr (env : ScanEnv) (st : ScanState) (err : Errno) : ScanState :=
  if st.errs.length - env.drained st.errs.length < errChanCap then
    { st with errs := st.errs ++ [err] }
  else st

/-- One poll of `ctx.Done()`. -/
def ScanState.poll (st : ScanState) : ScanState := { st with polls := st.polls + 1 }

/-- The two statements `info, err := entry.Info()`: the values assigned to
`modTime` and `size`, or the error on which the loop continues. -/
def fetchInfo (info : Except Errno Meta) : Except Errno (Int × Int) :=
  match info with
  | .error err => .error err
  | .ok info => .ok (info.ModTime, info.Size)

/-- The body of `scanDirSince` around its loop, the loop over the entries
being `loop`: the cancellation check, `os.ReadDir(path)` with result
`readErr`, and the report of its error. -/
def scanDirSince.withLoop (loop : ScanState → ScanState) (env : ScanEnv) (path : String)
    (readErr : Option Errno) (st : ScanState) : ScanState :=
  match env.ctx st.polls with
  | some _ => st.poll
  | none =>
      let st := { st.poll with reads := st.reads ++ [path] }
      match readErr with
      | some err => sendErr env st err
      | none => loop st

/-- The loop `for _, entry := range entries` of `scanDirSince`, in the
directory `path`.  The recursive call `s.scanDirSince(ctx, fullPath, ...)`
is `scanDirSince.withLoop` around the loop over the entries of the
subdirectory. -/
def scanLoop (env : ScanEnv) (since : Int) (path : String) :
    Listing → ScanState → ScanState
  | .nil, st => st
  | .dir name info readErr children rest, st =>
      match env.ctx st.polls with
      | some _ => st.poll
      | none =>
          let st := st.poll
          let fullPath := env.Join path name
          let needInfo : Bool := decide (since ≠ 0)
          match (if needInfo then fetchInfo info else .ok (0, 0)) with
          | .error err => scanLoop env since path rest (sendErr env st err)
          | .ok (modTime, _) =>
              -- `isDir`
              if since ≠ 0 ∧ modTime ≠ 0 ∧ modTime < since then
                scanLoop env since path rest st
              else
                scanLoop env since path rest
                  (scanDirSince.withLoop (scanLoop env since fullPath children)
                    env fullPath readErr st)
  | .file name info rest, st =>
      match env.ctx st.polls with
      | some _ => st.poll
      | none =>
          let st := st.poll
          let fullPath := env.Join path name
          let needInfo : Bool := decide (since ≠ 0)
          match (if needInfo then fetchInfo info else .ok (0, 0)) with
          | .error err => scanLoop env since path rest (sendErr env st err)
          | .ok (modTime, size) =>
              -- not `isDir`
              if since ≠ 0 ∧ modTime < since then scanLoop env since path rest st
              else
                let fileType := ClassifyFile env.tables fullPath
                match (if fileType ≠ FileType.Unknown ∧ needInfo = false
                       then fetchInfo info else .ok (modTime, size)) with
                | .error err => scanLoop env since path rest (sendErr env st err)
                | .ok (modTime, size) =>
                    match env.ctx st.polls with
                    | some _ => st.poll
                    | none =>
                        scanLoop env since path rest
                          { st.poll with
                            files := st.files ++
                              [{ Path := fullPath, Typ := fileType,
                                 ModTime := modTime, Size := size }] }

/-- Models `(*scanner).scanDirSince` on the directory at `path` whose `os.ReadDir`
gives `readErr` and `entries`. -/
def scanDirSince (env : ScanEnv) (since : Int) (path : String) (readErr : Option Errno)
    (entries : Listing) (st : ScanState) : ScanState :=
  scanDirSince.withLoop (scanLoop env since path entries) env path readErr st

/-- Models `(*scanner).ScanSince`: the state in which the goroutine closes the two
channels.  `readErr` and `entries` describe the directory at `path`. -/
def ScanSince (env : ScanEnv) (path : String) (since : Int) (readErr : Option Errno)
    (entries : Listing) : ScanState :=
  scanDirSince env since path readErr entries ScanState.init

/-- Models `(*scanner).scanDir`. -/
def scanDir (env : ScanEnv) (path : String) (readErr : Option Errno) (entries : Listing)
    (st : ScanState) : ScanState :=
  scanDirSince env 0 path readErr entries st

/-- Models `(*scanner).Scan`. -/
def Scan (env : ScanEnv) (path : String) (readErr : Option Errno) (entries : Listing) :
    ScanState :=
  scanDir env path readErr entries ScanState.init

/-! ### Reference notions for the walk -/

/-- The depth-first pre-order listing of a tree: one item per non-directory
entry, the joined path of the entry and its metadata, in the order of each
directory's listing; nothing for a directory itself. -/
def Listing.walk (join : String → String → String) (path : String) :
    Listing → List (String × Except Errno Meta)
  | .nil => []
  | .file name info rest => (join path name, info) :: Listing.walk join path rest
  | .dir name _ _ entries rest =>
      Listing.walk join (join path name) entries ++ Listing.walk join path rest

/-- Every directory of the tree can be listed and every metadata fetch in
it succeeds. -/
def Listing.Readable : Listing → Prop
  | .nil => True
  | .file _ info rest => (∃ m, info = .ok m) ∧ Listing.Readable rest
  | .dir _ info readErr entries rest =>
      (∃ m, info = .ok m) ∧ readErr = none ∧ Listing.Readable entries ∧ Listing.Readable rest

/-- Every file of the tree has a metadata fetch that succeeds, with a
modification time strictly before `since`. -/
def Listing.FilesBefore (since : Int) : Listing → Prop
  | .nil => True
  | .file _ info rest => (∃ m, info = .ok m ∧ m.ModTime < since) ∧ Listing.FilesBefore since rest
  | .dir _ _ _ entries rest =>
      Listing.FilesBefore since entries ∧ Listing.FilesBefore since rest

/-- Every subdirectory at the top of the listing has a non-zero
modification time strictly before `since`. -/
def Listing.SubdirsBefore (since : Int) : Listing → Prop
  | .nil => True
  | .file _ _ rest => Listing.SubdirsBefore since rest
  | .dir _ info _ _ rest =>
      (∃ m, info = .ok m ∧ m.ModTime ≠ 0 ∧ m.ModTime < since) ∧
        Listing.SubdirsBefore since rest

/-- The record `r` answers the item `item` of the walk as the specification
asks: its `Path` is the joined path of the entry, its `Type` is
`ClassifyFile(Path)`, and when the type is not `Unknown` it carries the
modification time and the size that the entry's metadata gives. -/
def Answers (t : Tables) (r : FileInfo) (item : String × Except Errno Meta) : Prop :=
  r.Path = item.1 ∧ r.Typ = ClassifyFile t r.Path ∧
    (r.Typ ≠ FileType.Unknown → item.2 = .ok { ModTime := r.ModTime, Size := r.Size })

/-- The record that a scan with `since` unset sends for an item of the
walk: the metadata is fetched for a type other than `Unknown` only. -/
def fullScanRecord (t : Tables) (item : String × Except Errno Meta) : FileInfo :=
  match item.2 with
  | .ok m =>
      if ClassifyFile t item.1 ≠ FileType.Unknown then
        { Path := item.1, Typ := ClassifyFile t item.1, ModTime := m.ModTime, Size := m.Size }
      else { Path := item.1, Typ := ClassifyFile t item.1, ModTime := 0, Size := 0 }
  | .error _ => { Path := item.1, Typ := ClassifyFile t item.1, ModTime := 0, Size := 0 }

/-! ## What the theorems assume of the operating system -/

/-- The facts about `os.MkdirAll`, `os.Stat`, `os.WriteFile` and `os.ReadFile`
that idempotence of pointer generation rests on. -/
structure OS.Lawful {σ : Type} (os : OS σ) : Prop where
  /-- Calling `MkdirAll` on a path that is already a directory does nothing and
  returns `nil`. -/
  mkdirAll_dir : ∀ fs d perm, os.Stat fs d = .ok true → os.MkdirAll fs d perm = (none, fs)
  /-- After a `MkdirAll` that returned `nil` the path is a directory. -/
  mkdirAll_ok : ∀ fs d perm fs1, os.MkdirAll fs d perm = (none, fs1) → os.Stat fs1 d = .ok true
  /-- After a `WriteFile` that returned `nil` the file exists and holds the
  data written. -/
  writeFile_ok : ∀ fs name data perm fs1, os.WriteFile fs name data perm = (none, fs1) →
    (∃ b, os.Stat fs1 name = .ok b) ∧ os.ReadFile fs1 name = .ok data
  /-- Writing a file leaves every directory a directory. -/
  writeFile_dir : ∀ fs name data perm fs1 d, os.WriteFile fs name data perm = (none, fs1) →
    os.Stat fs d = .ok true → os.Stat fs1 d = .ok true

/-- The operating system reports that `name` does not exist: looking the
name up fails with `ENOENT`, the error of which `os.IsNotExist` holds. -/
def OS.NotExist {σ : Type} (os : OS σ) (fs : σ) (name : String) : Prop :=
  os.Lstat fs name = some Errno.ENOENT

/-- The path `name` is absent from the filesystem `fs`: there is no entry
under that name, either because its last element is missing (`ENOENT`) or
because an element on the way to it is not a directory (`ENOTDIR`). -/
def OS.Absent {σ : Type} (os : OS σ) (fs : σ) (name : String) : Prop :=
  os.Lstat fs name = some Errno.ENOENT ∨ os.Lstat fs name = some Errno.ENOTDIR

/-- The fact about `os.Remove` that tolerance of deletion rests on: removing
a name that the operating system reports not to exist fails with `ENOENT`
and changes nothing. -/
def OS.RemoveNotExist {σ : Type} (os : OS σ) : Prop :=
  ∀ fs name, os.NotExist fs name → os.Remove fs name = (some Errno.ENOENT, fs)

/-! ## The path cleaning of `path/filepath`, with the separator `/` -/

/-- The inner loop of the `..` case of `filepath.Clean`, after the first
`out.w--`: `last` is `out.index(out.w)`, the byte just dropped, and `out` the
buffer, last byte first.  It backs up until the byte dropped is a separator
or the buffer is down to `dotdot` bytes. -/
def Clean.backup (dotdot : Nat) : Char → List Char → List Char
  | _, [] => []
  | last, c :: out =>
      if (c :: out).length > dotdot ∧ last ≠ '/' then Clean.backup dotdot c out
      else c :: out

/-- The main loop of `filepath.Clean` on the bytes not yet read.  `out` is
the output buffer, last byte first, and `dotdot` the length below which a
`..` cannot back up.  `inElem` holds while the inner loop of the default
case copies a path element. -/
def Clean.loop (rooted : Bool) : Bool → List Char → List Char → Nat → List Char
  | _, [], out, _ => out
  | true, c :: rest, out, dotdot =>
      if c = '/' then Clean.loop rooted false rest out dotdot
      else Clean.loop rooted true rest (c :: out) dotdot
  | false, c :: rest, out, dotdot =>
      if c = '/' then
        -- empty path element
        Clean.loop rooted false rest out dotdot
      else if c = '.' ∧ (rest = [] ∨ rest.head? = some '/') then
        -- `.` element
        Clean.loop rooted false rest out dotdot
      else if c = '.' ∧ rest.head? = some '.' ∧
          (rest.tail = [] ∨ rest.tail.head? = some '/') then
        -- `..` element: remove to last separator
        match rest with
        | [] => out
        | _ :: rest2 =>
            if out.length > dotdot then
              match out with
              | [] => Clean.loop rooted false rest2 out dotdot
              | last :: out1 => Clean.loop rooted false rest2 (Clean.backup dotdot last out1) dotdot
            else if !rooted then
              let out1 := if out.length > 0 then '/' :: out else out
              Clean.loop rooted false rest2 ('.' :: '.' :: out1) (out1.length + 2)
            else Clean.loop rooted false rest2 out dotdot
      else
        -- real path element: add a separator if needed, then copy it
        let out1 := if (rooted ∧ out.length ≠ 1) ∨ (!rooted ∧ out.length ≠ 0)
          then '/' :: out else out
        Clean.loop rooted true rest (c :: out1) dotdot

/-- Models `filepath.Clean` with the separator `/`. -/
def Clean (path : String) : String :=
  match path.data with
  | [] => "."
  | c :: rest =>
      let rooted : Bool := decide (c = '/')
      let out := if rooted then Clean.loop true false rest ['/'] 1
                 else Clean.loop false false (c :: rest) [] 0
      if out.length = 0 then "." else ⟨out.reverse⟩

/-- Models `filepath.Dir` with the separator `/`: `Clean` of the path up to
and including its last separator. -/
def Dir (path : String) : String :=
  Clean ⟨(path.data.reverse.dropWhile (fun c => c ≠ '/')).reverse⟩

/-! ## An in-memory filesystem

A small instance of `OS`, on which the statements below are exercised: a
filesystem is a list of bindings of a path to a node, the first binding of a
path being the one in force.  A call on a path that lies below a regular
file fails with `ENOTDIR`, and a path that bound paths lie below is not
written as a file. -/

/-- A node of the in-memory filesystem. -/
inductive MemNode where
  | dir
  | file (content : String)
  deriving DecidableEq, Repr

/-- The in-memory filesystem. -/
abbrev MemFS := List (String × MemNode)

namespace MemFS

/-- The node bound to a path, if any. -/
def lookup : MemFS → String → Option MemNode
  | [], _ => none
  | (p, n) :: rest, name => if p = name then some n else lookup rest name

/-- The filesystem without the bindings of a path. -/
def erase (fs : MemFS) (name : String) : MemFS := fs.filter (fun b => b.1 ≠ name)

/-- The loop of `ancestors`: `acc` holds the bytes already passed, last one
first. -/
def ancestors.loop : List Char → List Char → List String
  | _, [] => []
  | acc, c :: rest =>
      if c = '/' ∧ acc ≠ [] then ⟨acc.reverse⟩ :: ancestors.loop (c :: acc) rest
      else ancestors.loop (c :: acc) rest

/-- The paths on the way to `name`: its non-empty proper prefixes that end
just before a separator. -/
def ancestors (name : String) : List String := ancestors.loop [] name.data

/-- The node is a regular file. -/
def isFile : Option MemNode → Bool
  | some (.file _) => true
  | _ => false

/-- A path on the way to `name` is bound to a regular file: every call on
`name` then fails with `ENOTDIR`. -/
def underFile (fs : MemFS) (name : String) : Bool :=
  (ancestors name).any (fun p => isFile (lookup fs p))

/-- Some bound path lies below `name`, which is then a directory whether it
is bound or not. -/
def hasBelow (fs : MemFS) (name : String) : Bool :=
  fs.any (fun b => decide (name ∈ ancestors b.1))

/-- The calls of `OS` on the in-memory filesystem. -/
def os : OS MemFS where
  Stat fs name :=
    if underFile fs name then .error .ENOTDIR
    else
      match lookup fs name with
      | some .dir => .ok true
      | some (.file _) => .ok false
      | none => .error .ENOENT
  Lstat fs name :=
    if underFile fs name then some .ENOTDIR
    else
      match lookup fs name with
      | some _ => none
      | none => some .ENOENT
  MkdirAll fs name _ :=
    if underFile fs name then (some .ENOTDIR, fs)
    else
      match lookup fs name with
      | some .dir => (none, fs)
      | some (.file _) => (some .ENOTDIR, fs)
      | none => (none, (name, .dir) :: fs)
  WriteFile fs name data _ :=
    if underFile fs name then (some .ENOTDIR, fs)
    else if hasBelow fs name then (some .EISDIR, fs)
    else
      match lookup fs name with
      | some .dir => (some .EISDIR, fs)
      | _ => (none, (name, .file data) :: fs)
  ReadFile fs name :=
    if underFile fs name then .error .ENOTDIR
    else
      match lookup fs name with
      | some (.file data) => .ok data
      | some .dir => .error .EISDIR
      | none => .error .ENOENT
  Open fs name :=
    if underFile fs name then some .ENOTDIR
    else
      match lookup fs name with
      | some _ => none
      | none => some .ENOENT
  Create fs name :=
    if underFile fs name then (some .ENOTDIR, fs)
    else if hasBelow fs name then (some .EISDIR, fs)
    else
      match lookup fs name with
      | some .dir => (some .EISDIR, fs)
      | _ => (none, (name, .file "") :: fs)
  CopyBuffer fs dst src :=
    match lookup fs src with
    | some (.file data) => (none, (dst, .file data) :: fs)
    | some .dir => (some .EISDIR, fs)
    | none => (some .ENOSPC, fs)
  Sync fs _ := (none, fs)
  Remove fs name :=
    if underFile fs name then (some .ENOTDIR, fs)
    else
      match lookup fs name with
      | some _ => (none, erase fs name)
      | none => (some .ENOENT, fs)
  Dir := StrmGenerator.Dir
  Clean := StrmGenerator.Clean

end MemFS

/-! ## Sample data -/

/-- Extension tables in the manner of `pkg/models`. -/
def Tables.sample : Tables where
  MediaExtensions ext := ext ∈ [".mkv", ".mp4", ".avi"]
  MetadataExtensions ext := ext ∈ [".nfo", ".srt"]
  ImageExtensions ext := ext ∈ [".jpg", ".png"]
  lowerRune := Char.toLower

/-- A path mapper that puts the pointer file under `/out` and the media
under `/emby`. -/
def PathMapper.sample : PathMapper where
  ToSTRMPath mediaPath := "/out/" ++ mediaPath ++ ".strm"
  ToEmbyPath mediaPath := "/emby/" ++ mediaPath

/-- A path mapper that puts the media under `/emby-archive`, a sibling of
`/emby`. -/
def PathMapper.sibling : PathMapper where
  ToSTRMPath mediaPath := "/out/" ++ mediaPath ++ ".strm"
  ToEmbyPath mediaPath := "/emby-archive/" ++ mediaPath

/-- A path mapper whose pointer content lies outside `/emby`. -/
def PathMapper.misconfigured : PathMapper where
  ToSTRMPath mediaPath := "/out/" ++ mediaPath ++ ".strm"
  ToEmbyPath mediaPath := "/mnt/" ++ mediaPath

/-- A scan environment: the sample tables, paths joined with a separator, a
context that is never cancelled, and a receiver that never drains the error
channel. -/
def ScanEnv.sample : ScanEnv where
  tables := Tables.sample
  Join dir name := dir ++ "/" ++ name
  ctx := Context.background
  drained _ := 0

/-- A readable tree: a media file and an image in `a`, a metadata file in
`b`, a file without extension at the root. -/
def Listing.sample : Listing :=
  .dir "a" (.ok { ModTime := 40, Size := 0 }) none
    (.file "movie.MKV" (.ok { ModTime := 10, Size := 700 })
      (.file "poster.jpg" (.ok { ModTime := 20, Size := 30 }) .nil))
    (.file "README" (.ok { ModTime := 5, Size := 9 })
      (.dir "b" (.ok { ModTime := 50, Size := 0 }) none
        (.file "show.nfo" (.ok { ModTime := 30, Size := 2 }) .nil)
        .nil))

/-- The listing of a root with one media file. -/
def Listing.sampleBefore : Listing :=
  .file "intro.mp4" (.ok { ModTime := 3, Size := 4 }) .nil

/-- The subtree below a directory that cannot be listed. -/
def Listing.sampleHidden : Listing :=
  .file "secret.mkv" (.ok { ModTime := 1, Size := 1 }) .nil

/-! # Theorems -/

/-! ## Set differences (`FindOrphans`, `FindMissing`) -/

theorem GoMap.get_eq_true_iff (m : GoMap) (h : m.AllTrue) (p : String) :
    m.get p = true ↔ p ∈ m.keys := by
  induction m with
  | nil => simp [GoMap.get, GoMap.keys]
  | cons kv rest ih =>
      obtain ⟨k, v⟩ := kv
      have hv : v = true := h (k, v) (List.mem_cons_self _ _)
      have hrest : GoMap.AllTrue rest := fun kv hkv => h kv (List.mem_cons_of_mem _ hkv)
      have ih' := ih hrest
      simp only [GoMap.keys] at ih'
      by_cases hk : k = p
      · simp [GoMap.get, GoMap.keys, hk, hv]
      · have hk' : ¬ p = k := fun e => hk e.symm
        simp [GoMap.get, GoMap.keys, hk, hk', ih']

theorem FindOrphans_loop_eq (current : GoMap) (l : List (String × Bool)) (acc : List String) :
    FindOrphans.loop current l acc
      = acc ++ (l.map Prod.fst).filter (fun p => !current.get p) := by
  induction l generalizing acc with
  | nil => simp [FindOrphans.loop]
  | cons kv rest ih =>
      obtain ⟨k, v⟩ := kv
      by_cases hk : current.get k = true
      · simp [FindOrphans.loop, hk, ih]
      · simp [FindOrphans.loop, hk, ih]

theorem FindMissing_loop_eq (existing : GoMap) (l : List (String × Bool)) (acc : List String) :
    FindMissing.loop existing l acc
      = acc ++ (l.map Prod.fst).filter (fun p => !existing.get p) := by
  induction l generalizing acc with
  | nil => simp [FindMissing.loop]
  | cons kv rest ih =>
      obtain ⟨k, v⟩ := kv
      by_cases hk : existing.get k = true
      · simp [FindMissing.loop, hk, ih]
      · simp [FindMissing.loop, hk, ih]

/-- C1: `FindOrphans(existing, current)` is exactly the set difference
`existing \ current`.  For every map `existing` (its keys pairwise distinct,
as in every Go map) and every map `current` used as a set (every stored
value `true`), the returned list has no duplicates and a path occurs in it
if and only if it is a key of `existing` and not a key of `current`; in
particular no returned path is a key of `current`. -/
theorem FindOrphans_set_difference (existing current : GoMap)
    (hE : existing.WF) (hC : current.AllTrue) :
    (FindOrphans existing current).Nodup ∧
    (∀ p, p ∈ FindOrphans existing current ↔ (p ∈ existing.keys ∧ p ∉ current.keys)) ∧
    (∀ p ∈ FindOrphans existing current, p ∉ current.keys) := by
  have hmem : ∀ p, p ∈ FindOrphans existing current ↔
      (p ∈ existing.keys ∧ p ∉ current.keys) := by
    intro p
    rw [← GoMap.get_eq_true_iff current hC p]
    simp [FindOrphans, FindOrphans_loop_eq, GoMap.keys]
  refine ⟨?_, hmem, fun p hp => ((hmem p).1 hp).2⟩
  simp only [FindOrphans, FindOrphans_loop_eq, List.nil_append]
  exact List.Nodup.filter _ hE

/-- The statement of C1 on the maps `existing = {x.strm, y.strm}` and
`current = {y.strm, z.strm}`. -/
theorem FindOrphans_set_difference_witness :
    GoMap.WF [("x.strm", true), ("y.strm", true)] ∧
    GoMap.AllTrue [("y.strm", true), ("z.strm", true)] ∧
    FindOrphans [("x.strm", true), ("y.strm", true)] [("y.strm", true), ("z.strm", true)]
      = ["x.strm"] ∧
    (FindOrphans [("x.strm", true), ("y.strm", true)]
      [("y.strm", true), ("z.strm", true)]).Nodup :=
  ⟨by decide, by decide, by decide,
   (FindOrphans_set_difference [("x.strm", true), ("y.strm", true)]
      [("y.strm", true), ("z.strm", true)] (by decide) (by decide)).1⟩

/-- C2: `FindMissing(existing, current)` is exactly the set difference
`current \ existing`.  For every map `current` (its keys pairwise distinct,
as in every Go map) and every map `existing` used as a set (every stored
value `true`), the returned list has no duplicates and a path occurs in it
if and only if it is a key of `current` and not a key of `existing`; in
particular no returned path is a key of `existing`. -/
theorem FindMissing_set_difference (existing current : GoMap)
    (hC : current.WF) (hE : existing.AllTrue) :
    (FindMissing existing current).Nodup ∧
    (∀ p, p ∈ FindMissing existing current ↔ (p ∈ current.keys ∧ p ∉ existing.keys)) ∧
    (∀ p ∈ FindMissing existing current, p ∉ existing.keys) := by
  have hmem : ∀ p, p ∈ FindMissing existing current ↔
      (p ∈ current.keys ∧ p ∉ existing.keys) := by
    intro p
    rw [← GoMap.get_eq_true_iff existing hE p]
    simp [FindMissing, FindMissing_loop_eq, GoMap.keys]
  refine ⟨?_, hmem, fun p hp => ((hmem p).1 hp).2⟩
  simp only [FindMissing, FindMissing_loop_eq, List.nil_append]
  exact List.Nodup.filter _ hC

/-- The statement of C2 on the maps `existing = {x.strm, y.strm}` and
`current = {y.strm, z.strm}`. -/
theorem FindMissing_set_difference_witness :
    GoMap.WF [("y.strm", true), ("z.strm", true)] ∧
    GoMap.AllTrue [("x.strm", true), ("y.strm", true)] ∧
    FindMissing [("x.strm", true), ("y.strm", true)] [("y.strm", true), ("z.strm", true)]
      = ["z.strm"] ∧
    (FindMissing [("x.strm", true), ("y.strm", true)]
      [("y.strm", true), ("z.strm", true)]).Nodup :=
  ⟨by decide, by decide, by decide,
   (FindMissing_set_difference [("x.strm", true), ("y.strm", true)]
      [("y.strm", true), ("z.strm", true)] (by decide) (by decide)).1⟩

/-! ## Classification -/

theorem Ext_loop_eq (rev acc : List Char) :
    Ext.loop rev acc =
      if '.' ∈ rev.takeWhile (fun c => c ≠ '/') then
        '.' :: (((rev.takeWhile (fun c => c ≠ '/')).takeWhile (fun c => c ≠ '.')).reverse ++ acc)
      else [] := by
  induction rev generalizing acc with
  | nil => simp [Ext.loop]
  | cons c rev ih =>
      by_cases hs : c = '/'
      · simp [Ext.loop, hs]
      · by_cases hd : c = '.'
        · subst hd
          simp [Ext.loop, List.takeWhile]
        · have hd' : ¬ '.' = c := fun e => hd e.symm
          simp [Ext.loop, hs, hd, hd', ih, List.takeWhile]

/-- What `filepath.Ext` returns is the extension as the specification words
it. -/
theorem Ext_eq_extension (path : String) : Ext path = extension path := by
  simp [Ext, extension, Ext_loop_eq, suffixFromLastDot, finalElement]

/-- C3: `ClassifyFile` depends only on the lowercased extension of the path,
the extension being the suffix from the last dot of the final path element:
two paths whose extensions are equal after lowercasing are classified alike,
and a path whose extension is empty is `Unknown`. -/
theorem ClassifyFile_extension_only (t : Tables) :
    (∀ p q : String, ToLower t (extension p) = ToLower t (extension q) →
      ClassifyFile t p = ClassifyFile t q) ∧
    (∀ p : String, extension p = "" → ClassifyFile t p = FileType.Unknown) := by
  constructor
  · intro p q h
    simp only [ClassifyFile, Ext_eq_extension, h]
  · intro p h
    have h0 : ToLower t "" = "" := rfl
    simp [ClassifyFile, Ext_eq_extension, h, h0]

/-- The statement of C3 on `a/Movie.MKV` and `b.d/c.mkv`, and on the path
`a.b/noext`. -/
theorem ClassifyFile_extension_only_witness :
    ToLower Tables.sample (extension "a/Movie.MKV")
      = ToLower Tables.sample (extension "b.d/c.mkv") ∧
    ClassifyFile Tables.sample "a/Movie.MKV" = ClassifyFile Tables.sample "b.d/c.mkv" ∧
    extension "a.b/noext" = "" ∧
    ClassifyFile Tables.sample "a.b/noext" = FileType.Unknown :=
  ⟨by decide,
   (ClassifyFile_extension_only Tables.sample).1 "a/Movie.MKV" "b.d/c.mkv" (by decide),
   by decide,
   (ClassifyFile_extension_only Tables.sample).2 "a.b/noext" (by decide)⟩

/-! ## Pointer generation -/

theorem Context.background_open : Context.background.Open := fun _ => rfl

theorem MemFS.ancestors_loop_length (rest : List Char) :
    ∀ (acc : List Char) (p : String), p ∈ MemFS.ancestors.loop acc rest →
      p.data.length < acc.length + rest.length := by
  induction rest with
  | nil => intro acc p h; simp [MemFS.ancestors.loop] at h
  | cons c rest ih =>
      intro acc p h
      simp only [MemFS.ancestors.loop] at h
      split at h
      · rcases List.mem_cons.mp h with h | h
        · subst h
          simp
        · have := ih (c :: acc) p h
          simp only [List.length_cons] at this ⊢
          omega
      · have := ih (c :: acc) p h
        simp only [List.length_cons] at this ⊢
        omega

/-- No path is on the way to itself. -/
theorem MemFS.not_mem_ancestors_self (name : String) : name ∉ MemFS.ancestors name := by
  intro h
  have := MemFS.ancestors_loop_length name.data [] name h
  simp at this

theorem MemFS.lookup_cons_ne (fs : MemFS) (q p : String) (n : MemNode) (h : q ≠ p) :
    MemFS.lookup ((q, n) :: fs) p = MemFS.lookup fs p := by
  simp [MemFS.lookup, h]

theorem MemFS.lookup_mem (fs : MemFS) (d : String) (n : MemNode) :
    MemFS.lookup fs d = some n → ∃ b ∈ fs, b.1 = d := by
  induction fs with
  | nil => intro h; simp [MemFS.lookup] at h
  | cons b rest ih =>
      obtain ⟨p, m⟩ := b
      intro h
      simp only [MemFS.lookup] at h
      split at h
      · exact ⟨(p, m), List.mem_cons_self _ _, by assumption⟩
      · obtain ⟨b, hb, hd⟩ := ih h
        exact ⟨b, List.mem_cons_of_mem _ hb, hd⟩

/-- A bound path makes every path on the way to it a directory. -/
theorem MemFS.hasBelow_of (fs : MemFS) (name d : String) (n : MemNode)
    (ha : name ∈ MemFS.ancestors d) (hd : MemFS.lookup fs d = some n) :
    MemFS.hasBelow fs name = true := by
  obtain ⟨b, hb, hbd⟩ := MemFS.lookup_mem fs d n hd
  simp only [MemFS.hasBelow, List.any_eq_true, decide_eq_true_eq]
  exact ⟨b, hb, by rw [hbd]; exact ha⟩

/-- Binding a directory puts no regular file on the way to any path. -/
theorem MemFS.underFile_cons_dir (fs : MemFS) (q name : String)
    (h : MemFS.underFile fs name = false) :
    MemFS.underFile ((q, MemNode.dir) :: fs) name = false := by
  simp only [MemFS.underFile, List.any_eq_false] at h ⊢
  intro p hp
  by_cases hq : q = p
  · subst hq
    simp [MemFS.lookup, MemFS.isFile]
  · rw [MemFS.lookup_cons_ne fs q p _ hq]
    exact h p hp

/-- Binding a path that is on the way to no bound path leaves the bound
paths as far from a regular file as they were. -/
theorem MemFS.underFile_cons_file (fs : MemFS) (q name : String) (data : String)
    (hq : q ∉ MemFS.ancestors name)
    (h : MemFS.underFile fs name = false) :
    MemFS.underFile ((q, MemNode.file data) :: fs) name = false := by
  simp only [MemFS.underFile, List.any_eq_false] at h ⊢
  intro p hp
  have hne : q ≠ p := fun e => hq (e ▸ hp)
  rw [MemFS.lookup_cons_ne fs q p _ hne]
  exact h p hp

theorem MemFS.os_lawful : MemFS.os.Lawful := by
  constructor
  · intro fs d perm h
    simp only [MemFS.os] at h ⊢
    split at h
    · simp at h
    · rename_i hu
      simp only [hu]
      split at h <;> simp_all
  · intro fs d perm fs1 h
    simp only [MemFS.os] at h ⊢
    split at h
    · simp at h
    · rename_i hu
      simp only [Bool.not_eq_true] at hu
      split at h
      · simp only [Prod.mk.injEq, true_and] at h
        subst h
        simp_all
      · simp at h
      · simp only [Prod.mk.injEq, true_and] at h
        subst h
        simp [MemFS.underFile_cons_dir fs d d hu, MemFS.lookup]
  · intro fs name data perm fs1 h
    simp only [MemFS.os] at h ⊢
    split at h
    · simp at h
    · rename_i hu
      simp only [Bool.not_eq_true] at hu
      split at h
      · simp at h
      · split at h
        · simp at h
        · simp only [Prod.mk.injEq, true_and] at h
          subst h
          simp [MemFS.underFile_cons_file fs name name data
            (MemFS.not_mem_ancestors_self name) hu, MemFS.lookup]
  · intro fs name data perm fs1 d h hd
    simp only [MemFS.os] at h hd ⊢
    split at h
    · simp at h
    · split at h
      · simp at h
      · rename_i hb
        simp only [Bool.not_eq_true] at hb
        split at h
        · simp at h
        · rename_i hne
          simp only [Prod.mk.injEq, true_and] at h
          subst h
          split at hd
          · simp at hd
          · rename_i hud
            simp only [Bool.not_eq_true] at hud
            have hdd : MemFS.lookup fs d = some MemNode.dir := by
              split at hd <;> simp_all
            have hnd : name ≠ d := by
              intro e
              subst e
              exact hne hdd
            have hna : name ∉ MemFS.ancestors d := by
              intro ha
              rw [MemFS.hasBelow_of fs name d _ ha hdd] at hb
              exact Bool.noConfusion hb
            simp [MemFS.underFile_cons_file fs name d data hna hud,
              MemFS.lookup_cons_ne fs name d _ hnd, hdd]

theorem MemFS.os_removeNotExist : MemFS.os.RemoveNotExist := by
  intro fs name h
  simp only [OS.NotExist, MemFS.os] at h ⊢
  split at h
  · simp at h
  · rename_i hu
    simp only [hu]
    split at h <;> simp_all

/-- C4: mount validation fails without writing.  For every operating
system, generator, media path and filesystem state, with the context not
cancelled, if `ToEmbyPath(mediaPath)` does not start with the prefix that
`GetEmbyMount` returns, then `GenerateSTRM` returns `Failed` with a non-nil
error and `Path = ToSTRMPath(mediaPath)`, and the filesystem state is the one
it started from. -/
theorem GenerateSTRM_mount_violation {σ : Type} (os : OS σ) (g : Generator) (ctx : Context)
    (fs : σ) (mediaPath : String) (hctx : ctx.Open)
    (hpre : HasPrefix (g.pathMapper.ToEmbyPath mediaPath) (GetEmbyMount g) = false) :
    (GenerateSTRM os g ctx fs mediaPath).1.Status = GenerationStatus.Failed ∧
    (GenerateSTRM os g ctx fs mediaPath).1.Error ≠ none ∧
    (GenerateSTRM os g ctx fs mediaPath).1.Path = g.pathMapper.ToSTRMPath mediaPath ∧
    (GenerateSTRM os g ctx fs mediaPath).2 = fs := by
  simp only [GetEmbyMount] at hpre
  simp [GenerateSTRM, hctx 0, hpre]

/-- The statement of C4 on the in-memory filesystem, for a mapper that
answers `/mnt/movie.mkv` under the mount prefix `/emby`. -/
theorem GenerateSTRM_mount_violation_witness :
    Context.background.Open ∧
    HasPrefix (PathMapper.misconfigured.ToEmbyPath "movie.mkv")
      (GetEmbyMount (New MemFS.os PathMapper.misconfigured "/emby")) = false ∧
    GenerateSTRM MemFS.os (New MemFS.os PathMapper.misconfigured "/emby")
        Context.background [("/out", MemNode.dir)] "movie.mkv"
      = ({ Path := "/out/movie.mkv.strm", Status := GenerationStatus.Failed,
           Error := some (GenerationError.mountPrefixViolation "/mnt/movie.mkv") },
         [("/out", MemNode.dir)]) ∧
    (GenerateSTRM MemFS.os (New MemFS.os PathMapper.misconfigured "/emby")
        Context.background [("/out", MemNode.dir)] "movie.mkv").2 = [("/out", MemNode.dir)] :=
  ⟨Context.background_open, by decide, by decide,
   (GenerateSTRM_mount_violation MemFS.os (New MemFS.os PathMapper.misconfigured "/emby")
      Context.background [("/out", MemNode.dir)] "movie.mkv"
      Context.background_open (by decide)).2.2.2⟩

/-- What a `Success` of `GenerateSTRM` says about the calls it made: the
prefix check passed, `MkdirAll` and `WriteFile` returned `nil`, and the
state returned is the one `WriteFile` left. -/
theorem GenerateSTRM_success_inv {σ : Type} (os : OS σ) (g : Generator) (ctx : Context)
    (fs : σ) (mediaPath : String)
    (hS : (GenerateSTRM os g ctx fs mediaPath).1.Status = GenerationStatus.Success) :
    HasPrefix (g.pathMapper.ToEmbyPath mediaPath) g.embyMount = true ∧
    ∃ fs1, os.MkdirAll fs (os.Dir (g.pathMapper.ToSTRMPath mediaPath)) 0o755 = (none, fs1) ∧
      os.WriteFile fs1 (g.pathMapper.ToSTRMPath mediaPath)
        (g.pathMapper.ToEmbyPath mediaPath) 0o644
        = (none, (GenerateSTRM os g ctx fs mediaPath).2) := by
  unfold GenerateSTRM at hS ⊢
  cases hc : ctx 0 with
  | some e => simp [hc] at hS
  | none =>
    simp only [hc] at hS ⊢
    cases hp : HasPrefix (g.pathMapper.ToEmbyPath mediaPath) g.embyMount with
    | false => simp [hp] at hS
    | true =>
      simp only [hp, Bool.not_true, Bool.false_eq_true, if_false, CreateDirectories] at hS ⊢
      rcases hm : os.MkdirAll fs (os.Dir (g.pathMapper.ToSTRMPath mediaPath)) 0o755
        with ⟨e1, fs1⟩
      cases e1 with
      | some err => simp [hm] at hS
      | none =>
        simp only [hm] at hS ⊢
        cases hst : os.Stat fs1 (g.pathMapper.ToSTRMPath mediaPath) with
        | ok b => simp [hst] at hS
        | error err =>
          simp only [hst] at hS ⊢
          rcases hw : os.WriteFile fs1 (g.pathMapper.ToSTRMPath mediaPath)
            (g.pathMapper.ToEmbyPath mediaPath) 0o644 with ⟨e2, fs2⟩
          cases e2 with
          | some err => simp [hw] at hS
          | none => simp [hw]

/-- C5: pointer generation is idempotent.  On every operating system that
satisfies `OS.Lawful`, for every generator (its mapper a pair of functions,
hence deterministic), media path `p` and filesystem state: if a first call
`GenerateSTRM(p)` returns `Success`, then a second call, made on the state
the first one left and with a context that is not cancelled, returns
`Skipped` with a nil error and leaves that state unchanged; and after each
of the two calls the file at `ToSTRMPath(p)` holds exactly `ToEmbyPath(p)`. -/
theorem GenerateSTRM_idempotent {σ : Type} (os : OS σ) (hos : os.Lawful) (g : Generator)
    (ctx1 ctx2 : Context) (fs : σ) (p : String) (hctx : ctx2.Open)
    (hS : (GenerateSTRM os g ctx1 fs p).1.Status = GenerationStatus.Success) :
    GenerateSTRM os g ctx2 (GenerateSTRM os g ctx1 fs p).2 p
      = ({ Path := g.pathMapper.ToSTRMPath p, Status := GenerationStatus.Skipped,
           Error := none }, (GenerateSTRM os g ctx1 fs p).2) ∧
    os.ReadFile (GenerateSTRM os g ctx1 fs p).2 (g.pathMapper.ToSTRMPath p)
      = .ok (g.pathMapper.ToEmbyPath p) ∧
    os.ReadFile (GenerateSTRM os g ctx2 (GenerateSTRM os g ctx1 fs p).2 p).2
        (g.pathMapper.ToSTRMPath p)
      = .ok (g.pathMapper.ToEmbyPath p) := by
  obtain ⟨hp, fs1, hm, hw⟩ := GenerateSTRM_success_inv os g ctx1 fs p hS
  generalize (GenerateSTRM os g ctx1 fs p).2 = fs2 at hw ⊢
  obtain ⟨⟨b, hstat⟩, hread⟩ := hos.writeFile_ok _ _ _ _ _ hw
  have hdir : os.Stat fs2 (os.Dir (g.pathMapper.ToSTRMPath p)) = .ok true :=
    hos.writeFile_dir _ _ _ _ _ _ hw (hos.mkdirAll_ok _ _ _ _ hm)
  have hm2 := hos.mkdirAll_dir fs2 _ 0o755 hdir
  have hsecond : GenerateSTRM os g ctx2 fs2 p
      = ({ Path := g.pathMapper.ToSTRMPath p, Status := GenerationStatus.Skipped,
           Error := none }, fs2) := by
    simp [GenerateSTRM, hctx 0, hp, CreateDirectories, hm2, hstat]
  exact ⟨hsecond, hread, by rw [hsecond]; exact hread⟩

/-- The statement of C5 on the in-memory filesystem: the pointer file of
`movie.mkv` is written by the first call and skipped by the second. -/
theorem GenerateSTRM_idempotent_witness :
    MemFS.os.Lawful ∧ Context.background.Open ∧
    GenerateSTRM MemFS.os (New MemFS.os PathMapper.sample "/emby") Context.background []
        "movie.mkv"
      = ({ Path := "/out/movie.mkv.strm", Status := GenerationStatus.Success, Error := none },
         [("/out/movie.mkv.strm", MemNode.file "/emby/movie.mkv"), ("/out", MemNode.dir)]) ∧
    GenerateSTRM MemFS.os (New MemFS.os PathMapper.sample "/emby") Context.background
        (GenerateSTRM MemFS.os (New MemFS.os PathMapper.sample "/emby") Context.background []
          "movie.mkv").2 "movie.mkv"
      = ({ Path := (New MemFS.os PathMapper.sample "/emby").pathMapper.ToSTRMPath "movie.mkv",
           Status := GenerationStatus.Skipped, Error := none },
         (GenerateSTRM MemFS.os (New MemFS.os PathMapper.sample "/emby") Context.background []
          "movie.mkv").2) :=
  ⟨MemFS.os_lawful, Context.background_open, by decide,
   (GenerateSTRM_idempotent MemFS.os MemFS.os_lawful (New MemFS.os PathMapper.sample "/emby")
      Context.background Context.background [] "movie.mkv" Context.background_open
      (by decide)).1⟩

/-! ## Copy and deletion -/

/-- C6: `CopyFile` skips an existing destination without touching anything.
On every operating system, for every `src`, `dst` and filesystem state in
which `dst` exists (`os.Stat(dst)` succeeds), with the context not
cancelled, `CopyFile(src, dst)` returns `Skipped` with a nil error and the
filesystem state it started from: nothing is said, or asked, of `src`. -/
theorem CopyFile_skips_existing {σ : Type} (os : OS σ) (ctx : Context) (fs : σ)
    (src dst : String) (hctx : ctx.Open) (hdst : ∃ isDir, os.Stat fs dst = .ok isDir) :
    CopyFile os ctx fs src dst
      = ({ Src := src, Dst := dst, Status := CopyStatus.Skipped, Error := none }, fs) := by
  obtain ⟨b, hb⟩ := hdst
  simp [CopyFile, hctx 0, hb]

/-- The statement of C6 on the in-memory filesystem, with a destination that
exists and a source that does not. -/
theorem CopyFile_skips_existing_witness :
    Context.background.Open ∧
    (∃ isDir, MemFS.os.Stat [("/out/poster.jpg", MemNode.file "old")] "/out/poster.jpg"
      = .ok isDir) ∧
    MemFS.os.Lstat [("/out/poster.jpg", MemNode.file "old")] "/src/poster.jpg"
      = some Errno.ENOENT ∧
    CopyFile MemFS.os Context.background [("/out/poster.jpg", MemNode.file "old")]
        "/src/poster.jpg" "/out/poster.jpg"
      = ({ Src := "/src/poster.jpg", Dst := "/out/poster.jpg", Status := CopyStatus.Skipped,
           Error := none }, [("/out/poster.jpg", MemNode.file "old")]) :=
  ⟨Context.background_open, ⟨false, rfl⟩, by decide,
   CopyFile_skips_existing MemFS.os Context.background
     [("/out/poster.jpg", MemNode.file "old")] "/src/poster.jpg" "/out/poster.jpg"
     Context.background_open ⟨false, rfl⟩⟩

/-- One turn of the loop of `DeleteOrphans` on a path that the operating
system reports not to exist: both counts and the filesystem go on to the
next path as they are. -/
theorem DeleteOrphans_loop_not_exist {σ : Type} (os : OS σ) (hos : os.RemoveNotExist)
    (ctx : Context) (hctx : ctx.Open) (k : Nat) (fs : σ) (path : String) (rest : List String)
    (deleted errors : Nat) (h : os.NotExist fs path) :
    DeleteOrphans.loop os ctx k fs (path :: rest) deleted errors
      = DeleteOrphans.loop os ctx (k + 1) fs rest deleted errors := by
  simp [DeleteOrphans.loop, hctx k, hos fs path h, IsNotExist]

theorem DeleteOrphans_loop_all_not_exist {σ : Type} (os : OS σ) (hos : os.RemoveNotExist)
    (ctx : Context) (hctx : ctx.Open) (fs : σ) (paths : List String)
    (h : ∀ p ∈ paths, os.NotExist fs p) (k deleted errors : Nat) :
    DeleteOrphans.loop os ctx k fs paths deleted errors = ((deleted, errors), fs) := by
  induction paths generalizing k with
  | nil => simp [DeleteOrphans.loop]
  | cons p rest ih =>
      rw [DeleteOrphans_loop_not_exist os hos ctx hctx k fs p rest deleted errors
        (h p (List.mem_cons_self _ _))]
      exact ih (fun q hq => h q (List.mem_cons_of_mem _ hq)) (k + 1)

/-- The part of the tolerance of `DeleteOrphans` that holds.  On every
operating system on which removing a name reported not to exist fails with
`ENOENT` and changes nothing, with the context not cancelled: such a path
leaves the deleted count, the error count and the filesystem as they are
and the loop goes on with the next path; and over a list made only of such
paths `DeleteOrphans` returns `(0, 0)` and the filesystem state it started
from. -/
theorem DeleteOrphans_tolerates_not_exist {σ : Type} (os : OS σ) (hos : os.RemoveNotExist)
    (ctx : Context) (hctx : ctx.Open) :
    (∀ (k : Nat) (fs : σ) (path : String) (rest : List String) (deleted errors : Nat),
      os.NotExist fs path →
      DeleteOrphans.loop os ctx k fs (path :: rest) deleted errors
        = DeleteOrphans.loop os ctx (k + 1) fs rest deleted errors) ∧
    (∀ (fs : σ) (orphans : List String), (∀ p ∈ orphans, os.NotExist fs p) →
      DeleteOrphans os ctx fs orphans = ((0, 0), fs)) :=
  ⟨fun k fs path rest deleted errors h =>
     DeleteOrphans_loop_not_exist os hos ctx hctx k fs path rest deleted errors h,
   fun fs orphans h => DeleteOrphans_loop_all_not_exist os hos ctx hctx fs orphans h 0 0 0⟩

/-- The tolerance on the in-memory filesystem: of `x.strm`, `gone.strm` and
`y.strm` the second does not exist, two files are deleted and no error is
counted; and a list of two such paths gives `(0, 0)`. -/
theorem DeleteOrphans_tolerates_not_exist_witness :
    MemFS.os.RemoveNotExist ∧ Context.background.Open ∧
    DeleteOrphans MemFS.os Context.background
        [("x.strm", MemNode.file "a"), ("y.strm", MemNode.file "b")]
        ["x.strm", "gone.strm", "y.strm"] = ((2, 0), []) ∧
    (∀ p ∈ ["gone.strm", "lost.strm"],
      MemFS.os.NotExist [("x.strm", MemNode.file "a")] p) ∧
    DeleteOrphans MemFS.os Context.background [("x.strm", MemNode.file "a")]
        ["gone.strm", "lost.strm"] = ((0, 0), [("x.strm", MemNode.file "a")]) :=
  ⟨MemFS.os_removeNotExist, Context.background_open, by decide,
   by simp only [OS.NotExist]; decide,
   (DeleteOrphans_tolerates_not_exist MemFS.os MemFS.os_removeNotExist Context.background
      Context.background_open).2 [("x.strm", MemNode.file "a")] ["gone.strm", "lost.strm"]
      (by simp only [OS.NotExist]; decide)⟩

/-- One turn of the loop of `DeleteOrphans` on a path whose removal fails
with `ENOTDIR`, on every operating system and with the context not
cancelled: the error count goes up by one. -/
theorem DeleteOrphans_loop_not_dir {σ : Type} (os : OS σ)
    (ctx : Context) (hctx : ctx.Open) (k : Nat) (fs fs1 : σ) (path : String)
    (rest : List String) (deleted errors : Nat)
    (h : os.Remove fs path = (some Errno.ENOTDIR, fs1)) :
    DeleteOrphans.loop os ctx k fs (path :: rest) deleted errors
      = DeleteOrphans.loop os ctx (k + 1) fs1 rest deleted (errors + 1) := by
  simp [DeleteOrphans.loop, hctx k, h, IsNotExist]

/-- C7: `DeleteOrphans` counts an error for a path that is absent below a
regular file, against the claim that an absent path raises neither count.
In the filesystem where `/out` is a directory and `/out/show` a regular
file, the path `/out/show/ep1.strm` is absent: it has no entry, and looking
it up fails with `ENOTDIR`, of which `os.IsNotExist` does not hold.  With
the context not cancelled, `DeleteOrphans` on the list of that one path
returns `(0, 1)`, not `(0, 0)`, and leaves the filesystem as it was. -/
theorem DeleteOrphans_counts_absent_below_file :
    Context.background.Open ∧
    MemFS.os.Absent [("/out/show", MemNode.file "x"), ("/out", MemNode.dir)]
      "/out/show/ep1.strm" ∧
    MemFS.lookup [("/out/show", MemNode.file "x"), ("/out", MemNode.dir)]
      "/out/show/ep1.strm" = none ∧
    MemFS.os.Lstat [("/out/show", MemNode.file "x"), ("/out", MemNode.dir)]
      "/out/show/ep1.strm" = some Errno.ENOTDIR ∧
    MemFS.os.Remove [("/out/show", MemNode.file "x"), ("/out", MemNode.dir)]
      "/out/show/ep1.strm"
      = (some Errno.ENOTDIR, [("/out/show", MemNode.file "x"), ("/out", MemNode.dir)]) ∧
    IsNotExist Errno.ENOTDIR = false ∧
    DeleteOrphans MemFS.os Context.background
      [("/out/show", MemNode.file "x"), ("/out", MemNode.dir)] ["/out/show/ep1.strm"]
      = ((0, 1), [("/out/show", MemNode.file "x"), ("/out", MemNode.dir)]) :=
  ⟨Context.background_open, Or.inr (by decide), by decide, by decide, by decide, by decide,
   by decide⟩

/-! ## The tree walk -/

theorem sendErr_files (env : ScanEnv) (st : ScanState) (err : Errno) :
    (sendErr env st err).files = st.files := by
  unfold sendErr; split <;> rfl

theorem sendErr_reads (env : ScanEnv) (st : ScanState) (err : Errno) :
    (sendErr env st err).reads = st.reads := by
  unfold sendErr; split <;> rfl

/-- A full scan of a readable tree, from any state: the records of the walk
are appended and no error is sent. -/
theorem scanLoop_full (env : ScanEnv) (hctx : env.ctx.Open) (l : Listing) (hl : l.Readable) :
    ∀ (path : String) (st : ScanState),
      (scanLoop env 0 path l st).files
          = st.files ++ (l.walk env.Join path).map (fullScanRecord env.tables) ∧
      (scanLoop env 0 path l st).errs = st.errs := by
  induction l with
  | nil => intro path st; simp [scanLoop, Listing.walk]
  | file name info rest ih =>
      intro path st
      obtain ⟨⟨m, hm⟩, hrest⟩ := hl
      subst hm
      by_cases hT : ClassifyFile env.tables (env.Join path name) = FileType.Unknown
      · have h := ih hrest path
          { st.poll.poll with files := st.files ++ [{ Path := env.Join path name, Typ := ClassifyFile env.tables (env.Join path name), ModTime := 0, Size := 0 }] }
        simp [scanLoop, hctx _, fetchInfo, hT, Listing.walk, fullScanRecord, ScanState.poll] at h ⊢
        exact h
      · have h := ih hrest path
          { st.poll.poll with files := st.files ++ [{ Path := env.Join path name, Typ := ClassifyFile env.tables (env.Join path name), ModTime := m.ModTime, Size := m.Size }] }
        simp [scanLoop, hctx _, fetchInfo, hT, Listing.walk, fullScanRecord, ScanState.poll] at h ⊢
        exact h
  | dir name info readErr entries rest ihE ihR =>
      intro path st
      obtain ⟨_, hre, hE, hR⟩ := hl
      subst hre
      have h1 := ihE hE (env.Join path name) { st.poll.poll with reads := st.poll.reads ++ [env.Join path name] }
      have h2 := ihR hR path (scanLoop env 0 (env.Join path name) entries { st.poll.poll with reads := st.poll.reads ++ [env.Join path name] })
      simp [scanLoop, hctx _, scanDirSince.withLoop, Listing.walk, ScanState.poll] at h1 h2 ⊢
      rw [h2.1, h2.2, h1.1, h1.2]
      simp

/-- With a context that is not cancelled, the loop over a listing followed
by another is the loop over the second from the state the first leaves. -/
theorem scanLoop_append (env : ScanEnv) (hctx : env.ctx.Open) (since : Int) (path : String)
    (l1 l2 : Listing) :
    ∀ st : ScanState,
      scanLoop env since path (l1.append l2) st
        = scanLoop env since path l2 (scanLoop env since path l1 st) := by
  induction l1 with
  | nil => intro st; simp [Listing.append, scanLoop]
  | file name info rest ih =>
      intro st
      simp only [Listing.append, scanLoop, hctx _, ih]
      repeat' split
      all_goals rfl
  | dir name info readErr entries rest _ ih =>
      intro st
      simp only [Listing.append, scanLoop, hctx _, ih]
      repeat' split
      all_goals rfl

theorem fullScanRecord_answers (t : Tables) (item : String × Except Errno Meta)
    (h : ∃ m, item.2 = .ok m) : Answers t (fullScanRecord t item) item := by
  obtain ⟨m, hm⟩ := h
  obtain ⟨p, info⟩ := item
  simp only at hm
  subst hm
  by_cases hT : ClassifyFile t p = FileType.Unknown
  · simp [fullScanRecord, Answers, hT]
  · simp [fullScanRecord, Answers, hT]

theorem walk_info_ok (join : String → String → String) (l : Listing) (hl : l.Readable) :
    ∀ (path : String), ∀ item ∈ l.walk join path, ∃ m, item.2 = .ok m := by
  induction l with
  | nil => intro path item h; simp [Listing.walk] at h
  | file name info rest ih =>
      intro path item h
      simp only [Listing.walk, List.mem_cons] at h
      rcases h with h | h
      · subst h; exact hl.1
      · exact ih hl.2 path item h
  | dir name info readErr entries rest ihE ihR =>
      intro path item h
      simp only [Listing.walk, List.mem_append] at h
      rcases h with h | h
      · exact ihE hl.2.2.1 _ item h
      · exact ihR hl.2.2.2 path item h

theorem fullScanRecord_forall2 (t : Tables) (items : List (String × Except Errno Meta))
    (h : ∀ item ∈ items, ∃ m, item.2 = .ok m) :
    List.Forall₂ (Answers t) (items.map (fullScanRecord t)) items := by
  induction items with
  | nil => exact List.Forall₂.nil
  | cons item rest ih =>
      exact List.Forall₂.cons (fullScanRecord_answers t item (h item (List.mem_cons_self _ _)))
        (ih (fun x hx => h x (List.mem_cons_of_mem _ hx)))

/-- A full scan at a subdirectory that cannot be listed: the error is sent
and the loop goes on with the next entry. -/
theorem scanLoop_unreadable (env : ScanEnv) (hctx : env.ctx.Open) (path name : String)
    (info : Except Errno Meta) (err : Errno) (hidden rest : Listing) (st : ScanState) :
    scanLoop env 0 path (.dir name info (some err) hidden rest) st
      = scanLoop env 0 path rest
          (sendErr env { st.poll.poll with reads := st.poll.reads ++ [env.Join path name] }
            err) := by
  simp [scanLoop, hctx _, scanDirSince.withLoop]

/-- C8: partial failure is contained in the scan.  The root lists `before`,
then a subdirectory that cannot be listed (`os.ReadDir` fails with `err`;
`hidden` is what lies below it), then `after`; `before` and `after` are
readable throughout and every metadata fetch in them succeeds.  A full scan
that is not cancelled then sends, in walk order, exactly one record for
every file of `before` and of `after` (the files directly under the root
among them), each as the specification asks, none for the unreadable
subtree, and exactly one error, `err`, on the error channel. -/
theorem Scan_contains_failure (env : ScanEnv) (hctx : env.ctx.Open) (root : String)
    (before after hidden : Listing) (name : String) (info : Except Errno Meta) (err : Errno)
    (hbefore : before.Readable) (hafter : after.Readable) :
    List.Forall₂ (Answers env.tables)
      (Scan env root none (before.append (.dir name info (some err) hidden after))).files
      (before.walk env.Join root ++ after.walk env.Join root) ∧
    (Scan env root none (before.append (.dir name info (some err) hidden after))).errs
      = [err] := by
  have key : ∀ st : ScanState, st.errs = [] →
      (scanLoop env 0 root (before.append (.dir name info (some err) hidden after)) st).files
        = st.files ++ (before.walk env.Join root ++ after.walk env.Join root).map
            (fullScanRecord env.tables) ∧
      (scanLoop env 0 root (before.append (.dir name info (some err) hidden after)) st).errs
        = [err] := by
    intro st hst
    rw [scanLoop_append env hctx]
    obtain ⟨hf1, he1⟩ := scanLoop_full env hctx before hbefore root st
    generalize scanLoop env 0 root before st = s1 at hf1 he1
    have hsend : ∀ s : ScanState, s.errs = [] → s.files = s1.files →
        (sendErr env s err).errs = [err] ∧ (sendErr env s err).files = s1.files := by
      intro s hs hfs
      simp [sendErr, hs, errChanCap, hfs]
    obtain ⟨hse, hsf⟩ := hsend
      { s1.poll.poll with reads := s1.poll.reads ++ [env.Join root name] }
      (by simp [ScanState.poll, he1, hst]) (by simp [ScanState.poll])
    obtain ⟨hf2, he2⟩ := scanLoop_full env hctx after hafter root
      (sendErr env { s1.poll.poll with reads := s1.poll.reads ++ [env.Join root name] } err)
    rw [scanLoop_unreadable env hctx, hf2, he2, hse, hsf, hf1]
    simp
  have hinit := key { ScanState.init.poll with reads := ScanState.init.reads ++ [root] }
    (by simp [ScanState.init, ScanState.poll])
  have hS : Scan env root none (before.append (.dir name info (some err) hidden after))
      = scanLoop env 0 root (before.append (.dir name info (some err) hidden after))
          { ScanState.init.poll with reads := ScanState.init.reads ++ [root] } := by
    simp [Scan, scanDir, scanDirSince, scanDirSince.withLoop, hctx _]
  rw [hS, hinit.1, hinit.2]
  refine ⟨?_, rfl⟩
  simp only [ScanState.init, ScanState.poll, List.nil_append]
  apply fullScanRecord_forall2
  intro item hitem
  rcases List.mem_append.1 hitem with h | h
  · exact walk_info_ok env.Join before hbefore root item h
  · exact walk_info_ok env.Join after hafter root item h

/-- C10: a full scan equals the reference depth-first listing.  For every
tree in which every directory can be listed and every metadata fetch
succeeds, a scan with `since` unset that is not cancelled sends, in
depth-first pre-order following each directory's listing order, exactly one
record per non-directory entry and none for a directory; the `Path` of each
record is the joined path of its entry, its `Type` is `ClassifyFile(Path)`,
and a record whose type is not `Unknown` carries the modification time and
the size of the entry; no error is sent. -/
theorem Scan_eq_walk (env : ScanEnv) (hctx : env.ctx.Open) (root : String) (tree : Listing)
    (htree : tree.Readable) :
    List.Forall₂ (Answers env.tables) (Scan env root none tree).files
      (tree.walk env.Join root) ∧
    (Scan env root none tree).errs = [] := by
  have hS : Scan env root none tree
      = scanLoop env 0 root tree
          { ScanState.init.poll with reads := ScanState.init.reads ++ [root] } := by
    simp [Scan, scanDir, scanDirSince, scanDirSince.withLoop, hctx _]
  obtain ⟨hf, he⟩ := scanLoop_full env hctx tree htree root
    { ScanState.init.poll with reads := ScanState.init.reads ++ [root] }
  rw [hS, hf, he]
  refine ⟨?_, rfl⟩
  simp only [ScanState.init, ScanState.poll, List.nil_append]
  exact fullScanRecord_forall2 env.tables _ (walk_info_ok env.Join tree htree root)

theorem withLoop_files (loop : ScanState → ScanState) (env : ScanEnv) (path : String)
    (readErr : Option Errno) (h : ∀ st, (loop st).files = st.files) (st : ScanState) :
    (scanDirSince.withLoop loop env path readErr st).files = st.files := by
  unfold scanDirSince.withLoop
  cases env.ctx st.polls with
  | some e => rfl
  | none =>
      cases readErr with
      | some err => simp [sendErr_files, ScanState.poll]
      | none => simp [h, ScanState.poll]

/-- An incremental scan of a tree all of whose files are older than `since`
sends no record, from any state and whatever the context does. -/
theorem scanLoop_old_files (env : ScanEnv) (since : Int) (hsince : since ≠ 0) (l : Listing)
    (hl : l.FilesBefore since) :
    ∀ (path : String) (st : ScanState), (scanLoop env since path l st).files = st.files := by
  induction l with
  | nil => intro path st; simp [scanLoop]
  | file name info rest ih =>
      intro path st
      obtain ⟨⟨m, hm, hlt⟩, hrest⟩ := hl
      subst hm
      cases hc : env.ctx st.polls with
      | some e => simp [scanLoop, hc, ScanState.poll]
      | none => simp [scanLoop, hc, hsince, fetchInfo, hlt, ih hrest, ScanState.poll]
  | dir name info readErr entries rest ihE ihR =>
      intro path st
      obtain ⟨hE, hR⟩ := hl
      cases hc : env.ctx st.polls with
      | some e => simp [scanLoop, hc, ScanState.poll]
      | none =>
          cases info with
          | error err =>
              simp [scanLoop, hc, hsince, fetchInfo, ihR hR, sendErr_files, ScanState.poll]
          | ok m =>
              by_cases hskip : m.ModTime ≠ 0 ∧ m.ModTime < since
              · simp [scanLoop, hc, hsince, fetchInfo, hskip, ihR hR, ScanState.poll]
              · simp only [scanLoop, hc, hsince, fetchInfo, ne_eq, not_false_eq_true,
                  decide_True, if_true, true_and]
                rw [if_neg hskip, ihR hR, withLoop_files _ _ _ _ (ihE hE _)]
                rfl

/-- An incremental scan of a listing all of whose subdirectories are older
than `since` lists no directory, from any state and whatever the context
does. -/
theorem scanLoop_old_reads (env : ScanEnv) (since : Int) (hsince : since ≠ 0) (l : Listing)
    (hl : l.SubdirsBefore since) :
    ∀ (path : String) (st : ScanState), (scanLoop env since path l st).reads = st.reads := by
  induction l with
  | nil => intro path st; simp [scanLoop]
  | file name info rest ih =>
      intro path st
      cases hc : env.ctx st.polls with
      | some e => simp [scanLoop, hc, ScanState.poll]
      | none =>
          cases info with
          | error err =>
              simp [scanLoop, hc, hsince, fetchInfo, ih hl, sendErr_reads, ScanState.poll]
          | ok m =>
              by_cases hold : m.ModTime < since
              · simp [scanLoop, hc, hsince, fetchInfo, hold, ih hl, ScanState.poll]
              · cases hc2 : env.ctx (st.polls + 1) with
                | some e => simp [scanLoop, hc, hc2, hsince, fetchInfo, hold, ScanState.poll]
                | none =>
                    simp [scanLoop, hc, hc2, hsince, fetchInfo, hold, ih hl, ScanState.poll]
  | dir name info readErr entries rest _ ihR =>
      intro path st
      obtain ⟨⟨m, hm, hne, hlt⟩, hR⟩ := hl
      subst hm
      cases hc : env.ctx st.polls with
      | some e => simp [scanLoop, hc, ScanState.poll]
      | none => simp [scanLoop, hc, hsince, fetchInfo, hne, hlt, ihR hR, ScanState.poll]

/-- C9: an incremental scan past every modification time emits nothing.
For every tree, every non-zero `since` and every context: if the metadata
fetch of every file succeeds with a modification time strictly before
`since`, then `ScanSince(root, since)` sends no file record; and if in
addition every subdirectory of the root has a non-zero modification time
strictly before `since`, every directory the scan lists is the root. -/
theorem ScanSince_past_every_mtime (env : ScanEnv) (root : String) (since : Int)
    (hsince : since ≠ 0) (readErr : Option Errno) (tree : Listing)
    (hfiles : tree.FilesBefore since) :
    (ScanSince env root since readErr tree).files = [] ∧
    (tree.SubdirsBefore since →
      ∀ p ∈ (ScanSince env root since readErr tree).reads, p = root) := by
  constructor
  · unfold ScanSince scanDirSince
    rw [withLoop_files _ _ _ _ (scanLoop_old_files env since hsince tree hfiles root)]
    rfl
  · intro hdirs p hp
    unfold ScanSince scanDirSince scanDirSince.withLoop at hp
    simp only [ScanState.init, ScanState.poll] at hp
    cases hc : env.ctx 0 with
    | some e => simp [hc, ScanState.init, ScanState.poll] at hp
    | none =>
        cases readErr with
        | some err =>
            simp [hc, sendErr_reads, ScanState.init, ScanState.poll] at hp
            exact hp
        | none =>
            simp [hc, scanLoop_old_reads env since hsince tree hdirs, ScanState.init,
              ScanState.poll] at hp
            exact hp

/-- The statement of C8 on a root that lists `intro.mp4`, then a directory
`locked` that cannot be listed, then the entries of the sample tree. -/
theorem Scan_contains_failure_witness :
    ScanEnv.sample.ctx.Open ∧ Listing.sampleBefore.Readable ∧ Listing.sample.Readable ∧
    (Scan ScanEnv.sample "/media" none
        (Listing.sampleBefore.append
          (.dir "locked" (.ok { ModTime := 7, Size := 0 }) (some Errno.EACCES)
            Listing.sampleHidden Listing.sample))).files.map (fun r => r.Path)
      = ["/media/intro.mp4", "/media/a/movie.MKV", "/media/a/poster.jpg", "/media/README",
         "/media/b/show.nfo"] ∧
    (Scan ScanEnv.sample "/media" none
        (Listing.sampleBefore.append
          (.dir "locked" (.ok { ModTime := 7, Size := 0 }) (some Errno.EACCES)
            Listing.sampleHidden Listing.sample))).errs = [Errno.EACCES] :=
  ⟨Context.background_open,
   by simp [Listing.sampleBefore, Listing.Readable],
   by simp [Listing.sample, Listing.Readable],
   by decide,
   (Scan_contains_failure ScanEnv.sample Context.background_open "/media"
      Listing.sampleBefore Listing.sample Listing.sampleHidden "locked"
      (.ok { ModTime := 7, Size := 0 }) Errno.EACCES
      (by simp [Listing.sampleBefore, Listing.Readable])
      (by simp [Listing.sample, Listing.Readable])).2⟩

/-- The statement of C9 on the sample tree, whose modification times all
lie before `since = 100`. -/
theorem ScanSince_past_every_mtime_witness :
    (100 : Int) ≠ 0 ∧ Listing.sample.FilesBefore 100 ∧ Listing.sample.SubdirsBefore 100 ∧
    (ScanSince ScanEnv.sample "/media" 100 none Listing.sample).reads = ["/media"] ∧
    (ScanSince ScanEnv.sample "/media" 100 none Listing.sample).files = [] :=
  ⟨by decide,
   by simp [Listing.sample, Listing.FilesBefore],
   by simp [Listing.sample, Listing.SubdirsBefore],
   by decide,
   (ScanSince_past_every_mtime ScanEnv.sample "/media" 100 (by decide) none Listing.sample
      (by simp [Listing.sample, Listing.FilesBefore])).1⟩

/-- The statement of C10 on the sample tree: four records in walk order,
the one of type `Unknown` without metadata. -/
theorem Scan_eq_walk_witness :
    ScanEnv.sample.ctx.Open ∧ Listing.sample.Readable ∧
    (Scan ScanEnv.sample "/media" none Listing.sample).files
      = [{ Path := "/media/a/movie.MKV", Typ := FileType.Media, ModTime := 10, Size := 700 },
         { Path := "/media/a/poster.jpg", Typ := FileType.Image, ModTime := 20, Size := 30 },
         { Path := "/media/README", Typ := FileType.Unknown, ModTime := 0, Size := 0 },
         { Path := "/media/b/show.nfo", Typ := FileType.Metadata, ModTime := 30, Size := 2 }] ∧
    (Scan ScanEnv.sample "/media" none Listing.sample).errs = [] :=
  ⟨Context.background_open,
   by simp [Listing.sample, Listing.Readable],
   by decide,
   (Scan_eq_walk ScanEnv.sample Context.background_open "/media" Listing.sample
      (by simp [Listing.sample, Listing.Readable])).2⟩

/-! ## The mount prefix of a generator -/

/-- C11, as amended: pointer content is validated against the cleaned
mount-prefix string.  For every operating system, every string `m` given to
`New(pathMapper, m)` and every media path, with the context not cancelled,
if `ToEmbyPath(mediaPath)` does not start with `filepath.Clean(m)` then
`GenerateSTRM` rejects it with `Failed`; the prefix the generator validates
against, the one `GetEmbyMount` returns, is `filepath.Clean(m)`. -/
theorem New_validates_cleaned_mount {σ : Type} (os : OS σ) (pathMapper : PathMapper)
    (m : String) (ctx : Context) (fs : σ) (mediaPath : String) (hctx : ctx.Open)
    (hpre : HasPrefix (pathMapper.ToEmbyPath mediaPath) (os.Clean m) = false) :
    (GenerateSTRM os (New os pathMapper m) ctx fs mediaPath).1.Status
      = GenerationStatus.Failed ∧
    GetEmbyMount (New os pathMapper m) = os.Clean m := by
  refine ⟨?_, rfl⟩
  simp [GenerateSTRM, New, hctx 0, hpre]

/-- The amended statement of C11 on the in-memory filesystem: under the
mount prefix `/emby/`, cleaned to `/emby`, the content `/mnt/movie.mkv` is
rejected. -/
theorem New_validates_cleaned_mount_witness :
    Context.background.Open ∧
    HasPrefix (PathMapper.misconfigured.ToEmbyPath "movie.mkv") (MemFS.os.Clean "/emby/")
      = false ∧
    (GenerateSTRM MemFS.os (New MemFS.os PathMapper.misconfigured "/emby/")
        Context.background [] "movie.mkv").1.Status = GenerationStatus.Failed ∧
    GetEmbyMount (New MemFS.os PathMapper.misconfigured "/emby/") = "/emby" :=
  ⟨Context.background_open, by decide,
   (New_validates_cleaned_mount MemFS.os PathMapper.misconfigured "/emby/"
      Context.background [] "movie.mkv" Context.background_open (by decide)).1,
   by decide⟩

/-- C11 as stated fails.  With the mount prefix `m = /emby/` the generator
validates against `/emby`: the content `/emby-archive/movie.mkv` does not
start with `m`, the context is not cancelled, and `GenerateSTRM` writes the
pointer file and returns `Success`; and `GetEmbyMount` is not `m`. -/
theorem New_validates_configured_mount_counterexample :
    Context.background.Open ∧
    HasPrefix (PathMapper.sibling.ToEmbyPath "movie.mkv") "/emby/" = false ∧
    GenerateSTRM MemFS.os (New MemFS.os PathMapper.sibling "/emby/") Context.background []
        "movie.mkv"
      = ({ Path := "/out/movie.mkv.strm", Status := GenerationStatus.Success, Error := none },
         [("/out/movie.mkv.strm", MemNode.file "/emby-archive/movie.mkv"),
          ("/out", MemNode.dir)]) ∧
    GetEmbyMount (New MemFS.os PathMapper.sibling "/emby/") ≠ "/emby/" :=
  ⟨Context.background_open, by decide, by decide, by decide⟩

end StrmGenerator
